import Mathlib

/-!
Shallow embedding of the time-slot scheduling logic of the attendance system
(week utilities, time-range validation, overlap detection, request handling)
together with proofs relating it to its specification.

JavaScript strings are modelled as lists of characters (`Str`).  The JS
library functions the source relies on (`String.prototype.split`,
`String.prototype.includes`, `parseInt`, `trim`) are modelled by executable
Lean functions with the same behaviour on the inputs that occur in the
program; JS `NaN` results are modelled by `Option.none`, and JS number
comparisons on possibly-NaN values by `ltNum`/`geNum` below (every
comparison with NaN is false).
-/

abbrev Str := List Char
def leadsWith : Str → Str → Bool
  | [], _ => true
  | _ :: _, [] => false
  | a :: as, b :: bs => a == b && leadsWith as bs

/-- First occurrence of the separator `c :: sep` in a string: the part
before it and the part after it (`none` when it does not occur). -/
def findSplit (c : Char) (sep : Str) : Str → Option (Str × Str)
  | [] => none
  | d :: ds =>
    if leadsWith (c :: sep) (d :: ds) then
      some ([], ds.drop sep.length)
    else
      match findSplit c sep ds with
      | some (l, r) => some (d :: l, r)
      | none => none

/-- `String.prototype.includes` for the separator `c :: sep`. -/
def includesSub (c : Char) (sep : Str) (s : Str) : Bool :=
  (findSplit c sep s).isSome

/-- Worker for `splitAll`: scans the string left to right; `skip` counts
separator characters still to be consumed after a match, `acc` holds the
current piece reversed. -/
def splitGo (c : Char) (sep : Str) : Str → Nat → Str → List Str
  | [], _, acc => [acc.reverse]
  | _ :: ds, skip + 1, acc => splitGo c sep ds skip acc
  | d :: ds, 0, acc =>
    if leadsWith (c :: sep) (d :: ds) then
      acc.reverse :: splitGo c sep ds sep.length []
    else
      splitGo c sep ds 0 (d :: acc)

/-- `String.prototype.split` on the non-empty separator `c :: sep`. -/
def splitAll (c : Char) (sep : Str) (s : Str) : List Str :=
  splitGo c sep s 0 []

theorem leadsWith_append (p t : Str) : leadsWith p (p ++ t) = true := by
  induction p with
  | nil => rfl
  | cons a as ih => simp [leadsWith, ih]

theorem findSplit_not_mem {c : Char} {sep s : Str} (h : c ∉ s) :
    findSplit c sep s = none := by
  induction s with
  | nil => rfl
  | cons d ds ih =>
    have hdc : (c == d) = false := by
      simp only [beq_eq_false_iff_ne, ne_eq]
      intro hcd; exact h (hcd ▸ List.mem_cons_self d ds)
    rw [findSplit]
    simp only [leadsWith, hdc, Bool.false_and, if_neg (Bool.false_ne_true)]
    rw [ih (fun hm => h (List.mem_cons_of_mem d hm))]

theorem findSplit_append {c : Char} {sep xs : Str} (ys : Str) (h : c ∉ xs) :
    findSplit c sep (xs ++ c :: (sep ++ ys)) = some (xs, ys) := by
  induction xs with
  | nil =>
    rw [List.nil_append, findSplit]
    have hl : leadsWith (c :: sep) (c :: (sep ++ ys)) = true := by
      have := leadsWith_append (c :: sep) ys
      simpa using this
    rw [if_pos hl]
    simp [List.drop_left]
  | cons d ds ih =>
    have hdc : (c == d) = false := by
      simp only [beq_eq_false_iff_ne, ne_eq]
      intro hcd; exact h (hcd ▸ List.mem_cons_self d ds)
    rw [List.cons_append, findSplit]
    simp only [leadsWith, hdc, Bool.false_and, if_neg (Bool.false_ne_true)]
    rw [ih (fun hm => h (List.mem_cons_of_mem d hm))]

theorem splitGo_not_mem {c : Char} {sep s : Str} (h : c ∉ s) (acc : Str) :
    splitGo c sep s 0 acc = [acc.reverse ++ s] := by
  induction s generalizing acc with
  | nil => simp [splitGo]
  | cons d ds ih =>
    have hdc : (c == d) = false := by
      simp only [beq_eq_false_iff_ne, ne_eq]
      intro hcd; exact h (hcd ▸ List.mem_cons_self d ds)
    rw [splitGo]
    simp only [leadsWith, hdc, Bool.false_and, if_neg (Bool.false_ne_true)]
    rw [ih (fun hm => h (List.mem_cons_of_mem d hm))]
    simp

theorem splitGo_skip {c : Char} {sep : Str} (pre ys acc : Str) :
    splitGo c sep (pre ++ ys) pre.length acc = splitGo c sep ys 0 acc := by
  induction pre with
  | nil => rfl
  | cons a pre ih =>
    rw [List.cons_append, List.length_cons, splitGo]
    exact ih

theorem splitGo_append {c : Char} {sep xs : Str} (ys acc : Str) (h : c ∉ xs) :
    splitGo c sep (xs ++ c :: (sep ++ ys)) 0 acc =
      (acc.reverse ++ xs) :: splitGo c sep ys 0 [] := by
  induction xs generalizing acc with
  | nil =>
    rw [List.nil_append, splitGo]
    have hl : leadsWith (c :: sep) (c :: (sep ++ ys)) = true := by
      have := leadsWith_append (c :: sep) ys
      simpa using this
    rw [if_pos hl, splitGo_skip sep ys]
    simp
  | cons d ds ih =>
    have hdc : (c == d) = false := by
      simp only [beq_eq_false_iff_ne, ne_eq]
      intro hcd; exact h (hcd ▸ List.mem_cons_self d ds)
    rw [List.cons_append, splitGo]
    simp only [leadsWith, hdc, Bool.false_and, if_neg (Bool.false_ne_true)]
    rw [ih _ (fun hm => h (List.mem_cons_of_mem d hm))]
    simp

theorem splitAll_not_mem {c : Char} {sep s : Str} (h : c ∉ s) :
    splitAll c sep s = [s] := by
  simpa using splitGo_not_mem h []

theorem splitAll_append {c : Char} {sep xs ys : Str} (hx : c ∉ xs) (hy : c ∉ ys) :
    splitAll c sep (xs ++ c :: (sep ++ ys)) = [xs, ys] := by
  unfold splitAll
  rw [splitGo_append ys [] hx]
  rw [splitGo_not_mem hy]
  simp

def digitVal (c : Char) : Nat := c.toNat - 48

def digitChar (d : Nat) : Char := Char.ofNat (48 + d)

def readDigits (acc : Nat) : Str → Nat
  | [] => acc
  | c :: cs => if c.isDigit then readDigits (10 * acc + digitVal c) cs else acc

def parseLead : Str → Option Nat
  | [] => none
  | c :: cs => if c.isDigit then some (readDigits (digitVal c) cs) else none

/-- JS `parseInt` restricted to the base-10, non-negative case: skip
leading whitespace, then read leading decimal digits; `none` models NaN. -/
def parseIntJS (s : Str) : Option Nat :=
  parseLead (s.dropWhile Char.isWhitespace)

theorem digitChar_isDigit {d : Nat} (h : d ≤ 9) : (digitChar d).isDigit = true := by
  interval_cases d <;> decide

theorem digitVal_digitChar {d : Nat} (h : d ≤ 9) : digitVal (digitChar d) = d := by
  interval_cases d <;> decide

theorem digitChar_ne_colon {d : Nat} (h : d ≤ 9) : digitChar d ≠ ':' := by
  interval_cases d <;> decide

theorem digitChar_ne_space {d : Nat} (h : d ≤ 9) : digitChar d ≠ ' ' := by
  interval_cases d <;> decide

theorem digitChar_not_ws {d : Nat} (h : d ≤ 9) : (digitChar d).isWhitespace = false := by
  interval_cases d <;> decide

theorem isDigit_toNat {c : Char} (h : c.isDigit = true) :
    48 ≤ c.toNat ∧ c.toNat ≤ 57 := by
  simp only [Char.isDigit, Bool.and_eq_true, decide_eq_true_eq] at h
  constructor
  · exact h.1
  · exact h.2

theorem digitChar_digitVal {c : Char} (h : c.isDigit = true) :
    digitChar (digitVal c) = c := by
  obtain ⟨h1, _⟩ := isDigit_toNat h
  unfold digitChar digitVal
  rw [Nat.add_sub_cancel' h1]
  exact Char.ofNat_toNat c

def twoDig (n : Nat) : Str := [digitChar (n / 10), digitChar (n % 10)]

theorem parseIntJS_twoDig {n : Nat} (h : n ≤ 99) : parseIntJS (twoDig n) = some n := by
  have h1 : n / 10 ≤ 9 := by omega
  have h2 : n % 10 ≤ 9 := by omega
  unfold parseIntJS twoDig
  rw [List.dropWhile_cons_of_neg (by simp [digitChar_not_ws h1])]
  rw [parseLead, if_pos (digitChar_isDigit h1)]
  rw [readDigits, if_pos (digitChar_isDigit h2), readDigits]
  rw [digitVal_digitChar h1, digitVal_digitChar h2]
  congr 1
  omega

theorem parseIntJS_oneDig {n : Nat} (h : n ≤ 9) : parseIntJS [digitChar n] = some n := by
  unfold parseIntJS
  rw [List.dropWhile_cons_of_neg (by simp [digitChar_not_ws h])]
  rw [parseLead, if_pos (digitChar_isDigit h), readDigits]
  rw [digitVal_digitChar h]

def minutesOfParts : List Str → Option Nat
  | hours :: minutes :: _ =>
    (parseIntJS hours).bind fun h => (parseIntJS minutes).map fun m => h * 60 + m
  | _ => none

/-- `parseTimeToMinutes` from the week utilities:
`parseInt(hours) * 60 + parseInt(minutes)` after splitting on `":"`;
`none` models a NaN result. -/
def parseTimeToMinutes (time : Str) : Option Nat :=
  minutesOfParts (splitAll ':' [] time)

/-- The canonical two-digit rendering `HH:MM` of a wall-clock time. -/
def renderTime (h m : Nat) : Str := twoDig h ++ ':' :: twoDig m

theorem colon_not_mem_twoDig {n : Nat} (h : n ≤ 99) : ':' ∉ twoDig n := by
  have h1 : n / 10 ≤ 9 := by omega
  have h2 : n % 10 ≤ 9 := by omega
  intro hc
  rcases List.mem_cons.mp hc with h3 | h3
  · exact digitChar_ne_colon h1 h3.symm
  · rcases List.mem_cons.mp h3 with h4 | h4
    · exact digitChar_ne_colon h2 h4.symm
    · exact List.not_mem_nil _ h4

theorem space_not_mem_twoDig {n : Nat} (h : n ≤ 99) : ' ' ∉ twoDig n := by
  have h1 : n / 10 ≤ 9 := by omega
  have h2 : n % 10 ≤ 9 := by omega
  intro hc
  rcases List.mem_cons.mp hc with h3 | h3
  · exact digitChar_ne_space h1 h3.symm
  · rcases List.mem_cons.mp h3 with h4 | h4
    · exact digitChar_ne_space h2 h4.symm
    · exact List.not_mem_nil _ h4

theorem space_not_mem_renderTime {h m : Nat} (hh : h ≤ 99) (hm : m ≤ 99) :
    ' ' ∉ renderTime h m := by
  intro hc
  rcases List.mem_append.mp hc with h1 | h1
  · exact space_not_mem_twoDig hh h1
  · rcases List.mem_cons.mp h1 with h2 | h2
    · exact absurd h2 (by decide)
    · exact space_not_mem_twoDig hm h2

theorem splitAll_colon {xs ys : Str} (hx : ':' ∉ xs) (hy : ':' ∉ ys) :
    splitAll ':' [] (xs ++ ':' :: ys) = [xs, ys] := by
  have := @splitAll_append ':' [] xs ys hx hy
  simpa using this

theorem parseTime_renderTime {h m : Nat} (hh : h ≤ 99) (hm : m ≤ 99) :
    parseTimeToMinutes (renderTime h m) = some (h * 60 + m) := by
  unfold parseTimeToMinutes renderTime
  rw [splitAll_colon (colon_not_mem_twoDig hh) (colon_not_mem_twoDig hm)]
  rw [minutesOfParts, parseIntJS_twoDig hh, parseIntJS_twoDig hm]
  rfl

structure TimeInterval where
  start : Option Nat
  stop : Option Nat

def sepDash : Str := ['-', ' ']

def rangeOfParts : List Str → TimeInterval
  | s :: e :: _ => ⟨parseTimeToMinutes s, parseTimeToMinutes e⟩
  | _ => ⟨none, none⟩

def parseTimeRange (timeStr : Str) : TimeInterval :=
  if includesSub ' ' sepDash timeStr then
    rangeOfParts (splitAll ' ' sepDash timeStr)
  else
    ⟨parseTimeToMinutes timeStr, (parseTimeToMinutes timeStr).map (· + 60)⟩

def ltNum : Option Nat → Option Nat → Bool
  | some a, some b => decide (a < b)
  | _, _ => false

def checkTimeOverlap (time1 time2 : Str) : Bool :=
  let range1 := parseTimeRange time1
  let range2 := parseTimeRange time2
  ltNum range1.start range2.stop && ltNum range2.start range1.stop

inductive TimeText where
  | point (h m : Nat)
  | range (h1 m1 h2 m2 : Nat)

def TimeText.wf : TimeText → Prop
  | .point h m => h ≤ 23 ∧ m ≤ 59
  | .range h1 m1 h2 m2 => h1 ≤ 23 ∧ m1 ≤ 59 ∧ h2 ≤ 23 ∧ m2 ≤ 59

def TimeText.render : TimeText → Str
  | .point h m => renderTime h m
  | .range h1 m1 h2 m2 => renderTime h1 m1 ++ ' ' :: '-' :: ' ' :: renderTime h2 m2

def TimeText.specStart : TimeText → Nat
  | .point h m => h * 60 + m
  | .range h1 m1 _ _ => h1 * 60 + m1

def TimeText.specEnd : TimeText → Nat
  | .point h m => h * 60 + m + 60
  | .range _ _ h2 m2 => h2 * 60 + m2

theorem splitAll_dash {xs ys : Str} (hx : ' ' ∉ xs) (hy : ' ' ∉ ys) :
    splitAll ' ' sepDash (xs ++ ' ' :: '-' :: ' ' :: ys) = [xs, ys] := by
  have := @splitAll_append ' ' sepDash xs ys hx hy
  simpa [sepDash] using this

theorem includes_dash {xs ys : Str} (hx : ' ' ∉ xs) :
    includesSub ' ' sepDash (xs ++ ' ' :: '-' :: ' ' :: ys) = true := by
  have h2 : findSplit ' ' sepDash (xs ++ ' ' :: (sepDash ++ ys)) = some (xs, ys) :=
    findSplit_append ys hx
  simp only [includesSub]
  rw [show (xs ++ ' ' :: '-' :: ' ' :: ys : Str) = xs ++ ' ' :: (sepDash ++ ys) by simp [sepDash]]
  rw [h2]
  rfl

theorem not_includes_dash {s : Str} (h : ' ' ∉ s) :
    includesSub ' ' sepDash s = false := by
  simp [includesSub, findSplit_not_mem h]

theorem parseTimeRange_point {h m : Nat} (hh : h ≤ 99) (hm : m ≤ 99) :
    parseTimeRange (renderTime h m) = ⟨some (h * 60 + m), some (h * 60 + m + 60)⟩ := by
  unfold parseTimeRange
  rw [not_includes_dash (space_not_mem_renderTime hh hm)]
  simp only [Bool.false_eq_true, if_false]
  rw [parseTime_renderTime hh hm]
  rfl

theorem parseTimeRange_range {h1 m1 h2 m2 : Nat}
    (hh1 : h1 ≤ 99) (hm1 : m1 ≤ 99) (hh2 : h2 ≤ 99) (hm2 : m2 ≤ 99) :
    parseTimeRange (renderTime h1 m1 ++ ' ' :: '-' :: ' ' :: renderTime h2 m2) =
      ⟨some (h1 * 60 + m1), some (h2 * 60 + m2)⟩ := by
  unfold parseTimeRange
  rw [includes_dash (space_not_mem_renderTime hh1 hm1)]
  simp only [if_true]
  rw [splitAll_dash (space_not_mem_renderTime hh1 hm1) (space_not_mem_renderTime hh2 hm2)]
  rw [rangeOfParts, parseTime_renderTime hh1 hm1, parseTime_renderTime hh2 hm2]

theorem parseTimeRange_render {t : TimeText} (h : t.wf) :
    parseTimeRange t.render = ⟨some t.specStart, some t.specEnd⟩ := by
  cases t with
  | point hh mm =>
    obtain ⟨h1, h2⟩ := h
    exact parseTimeRange_point (by omega) (by omega)
  | range h1 m1 h2 m2 =>
    obtain ⟨b1, b2, b3, b4⟩ := h
    exact parseTimeRange_range (by omega) (by omega) (by omega) (by omega)

theorem checkTimeOverlap_spec {a b : TimeText} (ha : a.wf) (hb : b.wf) :
    checkTimeOverlap a.render b.render = true ↔
      (a.specStart < b.specEnd ∧ b.specStart < a.specEnd) := by
  unfold checkTimeOverlap
  rw [parseTimeRange_render ha, parseTimeRange_render hb]
  simp [ltNum]

example : checkTimeOverlap ("09:00 - 10:00").data ("10:00 - 11:00").data = false := by decide
example : checkTimeOverlap ("09:00 - 10:00").data ("09:30 - 10:30").data = true := by decide
example : checkTimeOverlap ("09:00").data ("09:30 - 10:00").data = true := by decide

/-- JS `String.prototype.trim`. -/
def trimStr (s : Str) : Str :=
  ((s.dropWhile Char.isWhitespace).reverse.dropWhile Char.isWhitespace).reverse

/-- The character class `[0-5]`. -/
def isMin10 (c : Char) : Bool :=
  c == '0' || c == '1' || c == '2' || c == '3' || c == '4' || c == '5'

/-- The character class `[0-3]`. -/
def isHr20 (c : Char) : Bool :=
  c == '0' || c == '1' || c == '2' || c == '3'

/-- The anchored regex `^([0-1]?[0-9]|2[0-3]):[0-5][0-9]$` from
`validateTimeRange`, as a test on the exact character list. -/
def timeRegexTest : Str → Bool
  | [a, co, b, c] =>
    co == ':' && (a.isDigit && (isMin10 b && c.isDigit))
  | [a, b, co, c, d] =>
    co == ':' &&
      ((((a == '0' || a == '1') && b.isDigit) || (a == '2' && isHr20 b)) &&
        (isMin10 c && d.isDigit))
  | _ => false

/-- JS `>=` where `none` models NaN (all comparisons with NaN are false). -/
def geNum : Option Nat → Option Nat → Bool
  | some a, some b => decide (b ≤ a)
  | _, _ => false

structure ValidationResult where
  isValid : Bool
  error : Option String
deriving DecidableEq

def errFormat1 : String := "Time must be in format \"HH:MM - HH:MM\""

def errFormat2 : String := "Invalid time format. Use HH:MM format (e.g., 09:30)"

def errOrder : String := "Start time must be before end time"

/-- The body of `validateTimeRange` after the split (first two parts of
`timeStr.split(' - ')`); the final catch-all is unreachable because the
separator occurs whenever this is called. -/
def validateParts : List Str → ValidationResult
  | startTime :: endTime :: _ =>
    if !(timeRegexTest (trimStr startTime)) || !(timeRegexTest (trimStr endTime)) then
      ⟨false, some errFormat2⟩
    else if geNum (parseTimeToMinutes (trimStr startTime)) (parseTimeToMinutes (trimStr endTime)) then
      ⟨false, some errOrder⟩
    else
      ⟨true, none⟩
  | _ => ⟨false, none⟩

/-- `validateTimeRange` from the week utilities. -/
def validateTimeRange (timeStr : Str) : ValidationResult :=
  if !(includesSub ' ' sepDash timeStr) then
    ⟨false, some errFormat1⟩
  else
    validateParts (splitAll ' ' sepDash timeStr)

/-- Specification-side well-formedness of one `HH:MM` half: hours in
[0,23] and minutes in [0,59], written with a two-digit minute and a one-
or two-digit hour; `h`/`m` are the denoted values. -/
def SpecTime (s : Str) (h m : Nat) : Prop :=
  h ≤ 23 ∧ m ≤ 59 ∧
    (s = renderTime h m ∨ (h ≤ 9 ∧ s = digitChar h :: ':' :: twoDig m))

instance (s : Str) (h m : Nat) : Decidable (SpecTime s h m) := by
  unfold SpecTime
  infer_instance

theorem isMin10_val {c : Char} (h : isMin10 c = true) :
    c.isDigit = true ∧ digitVal c ≤ 5 := by
  simp only [isMin10, Bool.or_eq_true, beq_iff_eq] at h
  rcases h with ((((h | h) | h) | h) | h) | h <;> subst h <;> exact ⟨by decide, by decide⟩

theorem isHr20_val {c : Char} (h : isHr20 c = true) :
    c.isDigit = true ∧ digitVal c ≤ 3 := by
  simp only [isHr20, Bool.or_eq_true, beq_iff_eq] at h
  rcases h with ((h | h) | h) | h <;> subst h <;> exact ⟨by decide, by decide⟩

theorem hr01_val {c : Char} (h : c = '0' ∨ c = '1') :
    c.isDigit = true ∧ digitVal c ≤ 1 := by
  rcases h with h | h <;> subst h <;> exact ⟨by decide, by decide⟩

theorem isMin10_digitChar {t : Nat} (h : t ≤ 5) : isMin10 (digitChar t) = true := by
  interval_cases t <;> decide

theorem isHr20_digitChar {t : Nat} (h : t ≤ 3) : isHr20 (digitChar t) = true := by
  interval_cases t <;> decide

theorem hr01_digitChar {t : Nat} (h : t ≤ 1) :
    (digitChar t == '0' || digitChar t == '1') = true := by
  interval_cases t <;> decide

theorem digitVal_le_nine {c : Char} (h : c.isDigit = true) : digitVal c ≤ 9 := by
  have := isDigit_toNat h
  unfold digitVal
  omega

theorem specTime_of_regex {s : Str} (hr : timeRegexTest s = true) :
    ∃ h m, SpecTime s h m := by
  match s with
  | [] => exact absurd hr (by decide)
  | [a] => exact absurd hr (by simp [timeRegexTest])
  | [a, b] => exact absurd hr (by simp [timeRegexTest])
  | [a, b, c] => exact absurd hr (by simp [timeRegexTest])
  | [a, co, b, c] =>
    simp only [timeRegexTest, Bool.and_eq_true, beq_iff_eq] at hr
    obtain ⟨hco, ha, hb, hc⟩ := hr
    obtain ⟨hbd, hb5⟩ := isMin10_val hb
    refine ⟨digitVal a, 10 * digitVal b + digitVal c, ?_, ?_, .inr ⟨digitVal_le_nine ha, ?_⟩⟩
    · have := digitVal_le_nine ha; omega
    · have := digitVal_le_nine hc; omega
    · have h1 : (10 * digitVal b + digitVal c) / 10 = digitVal b := by
        have := digitVal_le_nine hc; omega
      have h2 : (10 * digitVal b + digitVal c) % 10 = digitVal c := by
        have := digitVal_le_nine hc; omega
      rw [hco]
      simp only [twoDig, h1, h2, digitChar_digitVal ha, digitChar_digitVal hbd,
        digitChar_digitVal hc]
  | [a, b, co, c, d] =>
    simp only [timeRegexTest, Bool.and_eq_true, beq_iff_eq, Bool.or_eq_true] at hr
    obtain ⟨hco, hhr, hc, hd⟩ := hr
    obtain ⟨hcd, hc5⟩ := isMin10_val hc
    have hhour : a.isDigit = true ∧ b.isDigit = true ∧ 10 * digitVal a + digitVal b ≤ 23 := by
      rcases hhr with ⟨h01, hbd⟩ | ⟨h2, h20⟩
      · obtain ⟨had, ha1⟩ := hr01_val h01
        have := digitVal_le_nine hbd
        exact ⟨had, hbd, by omega⟩
      · obtain ⟨hbd, hb3⟩ := isHr20_val h20
        subst h2
        refine ⟨by decide, hbd, ?_⟩
        have : digitVal '2' = 2 := by decide
        omega
    obtain ⟨had, hbd, h23⟩ := hhour
    refine ⟨10 * digitVal a + digitVal b, 10 * digitVal c + digitVal d, h23, ?_, .inl ?_⟩
    · have := digitVal_le_nine hd; omega
    · have e1 : (10 * digitVal a + digitVal b) / 10 = digitVal a := by
        have := digitVal_le_nine hbd; omega
      have e2 : (10 * digitVal a + digitVal b) % 10 = digitVal b := by
        have := digitVal_le_nine hbd; omega
      have e3 : (10 * digitVal c + digitVal d) / 10 = digitVal c := by
        have := digitVal_le_nine hd; omega
      have e4 : (10 * digitVal c + digitVal d) % 10 = digitVal d := by
        have := digitVal_le_nine hd; omega
      rw [hco]
      simp only [renderTime, twoDig, e1, e2, e3, e4, digitChar_digitVal had,
        digitChar_digitVal hbd, digitChar_digitVal hcd, digitChar_digitVal hd]
      rfl
  | a :: b :: c :: d :: e :: f :: rest =>
    exact absurd hr (by simp [timeRegexTest])

theorem regex_of_specTime {s : Str} {h m : Nat} (hs : SpecTime s h m) :
    timeRegexTest s = true := by
  obtain ⟨h23, m59, hshape⟩ := hs
  have hm1 : m / 10 ≤ 5 := by omega
  have hm2 : m % 10 ≤ 9 := by omega
  rcases hshape with hE | ⟨h9, hE⟩
  · subst hE
    have hE5 : renderTime h m =
        [digitChar (h / 10), digitChar (h % 10), ':', digitChar (m / 10), digitChar (m % 10)] := by
      simp [renderTime, twoDig]
    rw [hE5]
    rcases Nat.lt_or_ge (h / 10) 2 with hlt | hge
    · have e1 := hr01_digitChar (t := h / 10) (by omega)
      simp [timeRegexTest, e1, digitChar_isDigit (show h % 10 ≤ 9 by omega),
        isMin10_digitChar hm1, digitChar_isDigit hm2]
    · have e2 : h / 10 = 2 := by omega
      have e3 : (digitChar 2 == '2') = true := by decide
      rw [e2]
      simp [timeRegexTest, e3, isHr20_digitChar (show h % 10 ≤ 3 by omega),
        isMin10_digitChar hm1, digitChar_isDigit hm2]
  · subst hE
    simp [timeRegexTest, twoDig, digitChar_isDigit h9, isMin10_digitChar hm1,
      digitChar_isDigit hm2]

theorem regex_iff_specTime (s : Str) :
    timeRegexTest s = true ↔ ∃ h m, SpecTime s h m := by
  constructor
  · exact specTime_of_regex
  · rintro ⟨h, m, hs⟩
    exact regex_of_specTime hs

theorem parseTime_specTime {s : Str} {h m : Nat} (hs : SpecTime s h m) :
    parseTimeToMinutes s = some (h * 60 + m) := by
  obtain ⟨h23, m59, hshape⟩ := hs
  rcases hshape with hE | ⟨h9, hE⟩
  · subst hE
    exact parseTime_renderTime (by omega) (by omega)
  · subst hE
    have hshape2 : (digitChar h :: ':' :: twoDig m : Str) = [digitChar h] ++ ':' :: twoDig m := rfl
    rw [hshape2]
    unfold parseTimeToMinutes
    rw [splitAll_colon (by
        intro hc
        rcases List.mem_cons.mp hc with h1 | h1
        · exact digitChar_ne_colon h9 h1.symm
        · exact List.not_mem_nil _ h1)
      (colon_not_mem_twoDig (by omega))]
    rw [minutesOfParts, parseIntJS_oneDig h9, parseIntJS_twoDig (by omega)]
    rfl

theorem regex_false_of_no_spec {t : Str} (h : ¬ ∃ hh mm, SpecTime t hh mm) :
    timeRegexTest t = false := by
  cases htest : timeRegexTest t
  · rfl
  · exact absurd (specTime_of_regex htest) h

/-- C2: time-range validation succeeds iff the string contains the
literal separator " - ", both halves (after trimming) denote an `HH:MM`
time with hour in [0,23] and minute in [0,59] (one- or two-digit hour,
two-digit minute), and the start is strictly before the end; a missing
separator or a malformed half yields the corresponding format error, and
well-formed halves with start >= end yield the ordering error. -/
theorem validateTimeRange_matches_spec (s : Str) :
    ((validateTimeRange s).isValid = true ↔
      includesSub ' ' sepDash s = true ∧
      ∃ a b rest, splitAll ' ' sepDash s = a :: b :: rest ∧
        ∃ h1 m1 h2 m2, SpecTime (trimStr a) h1 m1 ∧ SpecTime (trimStr b) h2 m2 ∧
          h1 * 60 + m1 < h2 * 60 + m2)
    ∧ (includesSub ' ' sepDash s = false →
        validateTimeRange s = ⟨false, some errFormat1⟩)
    ∧ (∀ a b rest, includesSub ' ' sepDash s = true →
        splitAll ' ' sepDash s = a :: b :: rest →
        ((¬ ∃ hh mm, SpecTime (trimStr a) hh mm) ∨ (¬ ∃ hh mm, SpecTime (trimStr b) hh mm)) →
        validateTimeRange s = ⟨false, some errFormat2⟩)
    ∧ (∀ a b rest h1 m1 h2 m2, includesSub ' ' sepDash s = true →
        splitAll ' ' sepDash s = a :: b :: rest →
        SpecTime (trimStr a) h1 m1 → SpecTime (trimStr b) h2 m2 →
        h2 * 60 + m2 ≤ h1 * 60 + m1 →
        validateTimeRange s = ⟨false, some errOrder⟩) := by
  refine ⟨?_, ?_, ?_, ?_⟩
  · constructor
    · intro hvalid
      cases hinc : includesSub ' ' sepDash s with
      | false =>
        rw [validateTimeRange, hinc] at hvalid
        simp at hvalid
      | true =>
        rw [validateTimeRange, hinc] at hvalid
        simp only [Bool.not_true, Bool.false_eq_true, if_false] at hvalid
        refine ⟨rfl, ?_⟩
        match hsp : splitAll ' ' sepDash s with
        | [] => rw [hsp] at hvalid; simp [validateParts] at hvalid
        | [a] => rw [hsp] at hvalid; simp [validateParts] at hvalid
        | a :: b :: rest =>
          rw [hsp] at hvalid
          rw [validateParts] at hvalid
          by_cases hra : timeRegexTest (trimStr a) = true
          · by_cases hrb : timeRegexTest (trimStr b) = true
            · simp only [hra, hrb, Bool.not_true, Bool.or_self, Bool.false_eq_true,
                if_false] at hvalid
              obtain ⟨h1, m1, hs1⟩ := specTime_of_regex hra
              obtain ⟨h2, m2, hs2⟩ := specTime_of_regex hrb
              refine ⟨a, b, rest, rfl, h1, m1, h2, m2, hs1, hs2, ?_⟩
              rw [parseTime_specTime hs1, parseTime_specTime hs2] at hvalid
              by_cases hord : h1 * 60 + m1 < h2 * 60 + m2
              · exact hord
              · exfalso
                have : geNum (some (h1 * 60 + m1)) (some (h2 * 60 + m2)) = true := by
                  simp [geNum]; omega
                rw [this] at hvalid
                simp at hvalid
            · exfalso
              simp only [Bool.not_eq_true] at hrb
              simp [hrb] at hvalid
          · exfalso
            simp only [Bool.not_eq_true] at hra
            simp [hra] at hvalid
    · rintro ⟨hinc, a, b, rest, hsp, h1, m1, h2, m2, hs1, hs2, hord⟩
      rw [validateTimeRange, hinc]
      simp only [Bool.not_true, Bool.false_eq_true, if_false]
      rw [hsp, validateParts, regex_of_specTime hs1, regex_of_specTime hs2]
      rw [parseTime_specTime hs1, parseTime_specTime hs2]
      have : geNum (some (h1 * 60 + m1)) (some (h2 * 60 + m2)) = false := by
        simp [geNum]; omega
      rw [this]
      simp
  · intro hinc
    rw [validateTimeRange, hinc]
    rfl
  · intro a b rest hinc hsp hbad
    rw [validateTimeRange, hinc]
    simp only [Bool.not_true, Bool.false_eq_true, if_false]
    rw [hsp, validateParts]
    rcases hbad with hbad | hbad
    · rw [regex_false_of_no_spec hbad]
      rfl
    · rw [regex_false_of_no_spec hbad]
      simp
  · intro a b rest h1 m1 h2 m2 hinc hsp hs1 hs2 hord
    rw [validateTimeRange, hinc]
    simp only [Bool.not_true, Bool.false_eq_true, if_false]
    rw [hsp, validateParts, regex_of_specTime hs1, regex_of_specTime hs2]
    rw [parseTime_specTime hs1, parseTime_specTime hs2]
    have : geNum (some (h1 * 60 + m1)) (some (h2 * 60 + m2)) = true := by
      simp [geNum]; omega
    rw [this]
    simp

/-- C1: for well-formed inputs (a "HH:MM - HH:MM" range or a bare
"HH:MM" time) the overlap check normalizes each input to a half-open
interval [start, end) in minutes since midnight — a bare time t becoming
[t, t+60) — and returns true iff a.start < b.end and b.start < a.end; in
particular touching ranges do not overlap, and the two listed positive
examples do. -/
theorem checkTimeOverlap_halfOpen_spec :
    (∀ a b : TimeText, a.wf → b.wf →
      (checkTimeOverlap a.render b.render = true ↔
        (a.specStart < b.specEnd ∧ b.specStart < a.specEnd)))
    ∧ checkTimeOverlap ("09:00 - 10:00").data ("10:00 - 11:00").data = false
    ∧ checkTimeOverlap ("09:00 - 10:00").data ("09:30 - 10:30").data = true
    ∧ checkTimeOverlap ("09:00").data ("09:30 - 10:00").data = true := by
  refine ⟨fun a b ha hb => checkTimeOverlap_spec ha hb, by decide, by decide, by decide⟩

/-- Witness for C1 at a concrete pair of well-formed ranges. -/
theorem checkTimeOverlap_halfOpen_spec_witness :
    (TimeText.range 9 0 10 0).wf ∧ (TimeText.range 9 30 10 30).wf ∧
    (checkTimeOverlap (TimeText.range 9 0 10 0).render (TimeText.range 9 30 10 30).render = true ↔
      ((TimeText.range 9 0 10 0).specStart < (TimeText.range 9 30 10 30).specEnd ∧
        (TimeText.range 9 30 10 30).specStart < (TimeText.range 9 0 10 0).specEnd)) :=
  ⟨⟨by omega, by omega, by omega, by omega⟩, ⟨by omega, by omega, by omega, by omega⟩,
    checkTimeOverlap_halfOpen_spec.1 (TimeText.range 9 0 10 0) (TimeText.range 9 30 10 30)
      ⟨by omega, by omega, by omega, by omega⟩ ⟨by omega, by omega, by omega, by omega⟩⟩

/-- Witness for C2 at the concrete reversed range "10:00 - 09:00". -/
theorem validateTimeRange_matches_spec_witness :
    SpecTime (trimStr ("10:00").data) 10 0 ∧ SpecTime (trimStr ("09:00").data) 9 0 ∧
    validateTimeRange ("10:00 - 09:00").data = ⟨false, some errOrder⟩ :=
  ⟨by decide, by decide,
    (validateTimeRange_matches_spec (("10:00 - 09:00").data)).2.2.2
      (("10:00").data) (("09:00").data) [] 10 0 9 0 (by decide) (by decide)
      (by decide) (by decide) (by omega)⟩

/-- A JS `Date` at one-minute resolution: `days` counts calendar days
from a reference Sunday (so `getDay` is `days % 7`), `mins` is the
wall-clock minute within the day.  `setHours(h, m, 0, 0)` replaces
`mins`; `setDate` arithmetic shifts `days`. -/
structure DateM where
  days : Nat
  mins : Nat
deriving DecidableEq

def DateM.getDay (d : DateM) : Nat := d.days % 7

/-- JS `Date` comparison `a < b` (timestamp order). -/
def DateM.before (a b : DateM) : Bool :=
  decide (a.days * 1440 + a.mins < b.days * 1440 + b.mins)

/-- `toDateString()` equality: same calendar day. -/
def DateM.sameDate (a b : DateM) : Bool := a.days == b.days

structure WeekDate where
  date : DateM
  dayOfWeek : Nat
  dayName : String
  isToday : Bool
  isPast : Bool

def dayNames : List String :=
  ["Sunday", "Monday", "Tuesday", "Wednesday", "Thursday", "Friday", "Saturday"]

/-- `getCurrentWeekDates` from the week utilities; the source reads the
wall clock, modelled by the explicit `today` argument. -/
def getCurrentWeekDates (today : DateM) : List WeekDate :=
  let currentDay := today.getDay
  let startOfWeek : DateM := ⟨today.days - currentDay, today.mins⟩
  (List.range 7).map fun i =>
    let date : DateM := ⟨startOfWeek.days + i, startOfWeek.mins⟩
    let isToday := date.sameDate today
    let isPast := date.before today && !isToday
    { date := date, dayOfWeek := i, dayName := (dayNames.get? i).getD (""),
      isToday := isToday, isPast := isPast }

theorem beq_decide (a b : Nat) : (a == b) = decide (a = b) := by
  by_cases h : a = b <;> simp [h]

theorem getCurrentWeekDates_eq (today : DateM) :
    getCurrentWeekDates today = (List.range 7).map fun i =>
      { date := ⟨today.days - today.days % 7 + i, today.mins⟩,
        dayOfWeek := i,
        dayName := (dayNames.get? i).getD (""),
        isToday := decide (i = today.days % 7),
        isPast := decide (i < today.days % 7) } := by
  have hc : today.days % 7 ≤ today.days := Nat.mod_le _ _
  unfold getCurrentWeekDates
  apply List.map_congr_left
  intro i hi
  have hi7 : i < 7 := List.mem_range.mp hi
  simp only [DateM.sameDate, DateM.before, DateM.getDay, WeekDate.mk.injEq]
  refine ⟨trivial, trivial, trivial, ?_, ?_⟩
  · rw [beq_decide]
    simp only [decide_eq_decide]
    omega
  · rw [beq_decide]
    simp only [← decide_not, ← Bool.decide_and, decide_eq_decide]
    omega

/-- C3: for every value of now, the current-week computation returns
exactly 7 entries starting at WeekDay 0 (the most recent Sunday) of the
week containing now, with dayOfWeek indices 0..6 in order, dates
strictly increasing by one day, exactly one entry with isToday, the
number of isPast entries equal to now's weekday index, and isPast and
isToday never both true. -/
theorem getCurrentWeekDates_matches_spec (today : DateM) :
    (getCurrentWeekDates today).length = 7
    ∧ (∀ i (h : i < (getCurrentWeekDates today).length),
        ((getCurrentWeekDates today).get ⟨i, h⟩).dayOfWeek = i)
    ∧ ((getCurrentWeekDates today).head?.map (fun w => w.date.days) =
        some (today.days - today.days % 7))
    ∧ (today.days - today.days % 7) % 7 = 0
    ∧ today.days - today.days % 7 ≤ today.days
    ∧ today.days < today.days - today.days % 7 + 7
    ∧ (∀ i (h1 : i + 1 < (getCurrentWeekDates today).length)
        (h2 : i < (getCurrentWeekDates today).length),
        ((getCurrentWeekDates today).get ⟨i + 1, h1⟩).date.days =
          ((getCurrentWeekDates today).get ⟨i, h2⟩).date.days + 1)
    ∧ List.countP (fun w => w.isToday) (getCurrentWeekDates today) = 1
    ∧ List.countP (fun w => w.isPast) (getCurrentWeekDates today) = today.getDay
    ∧ (∀ w ∈ getCurrentWeekDates today, ¬(w.isPast = true ∧ w.isToday = true)) := by
  obtain ⟨c, hcdef⟩ : ∃ c, today.days % 7 = c := ⟨_, rfl⟩
  have hc : c ≤ today.days := by omega
  have hc7 : c < 7 := by omega
  rw [getCurrentWeekDates_eq, hcdef]
  have hr : List.range 7 = [0, 1, 2, 3, 4, 5, 6] := rfl
  rw [hr]
  simp only [List.map_cons, List.map_nil, DateM.getDay, hcdef]
  refine ⟨rfl, ?_, ?_, by omega, by omega, by omega, ?_, ?_, ?_, ?_⟩
  · intro i h
    simp at h
    interval_cases i <;> rfl
  · simp
  · intro i h1 h2
    simp at h1
    have h6 : i < 6 := by omega
    interval_cases i <;> rfl
  · simp only [List.countP_cons, List.countP_nil]
    interval_cases c <;> simp
  · simp only [List.countP_cons, List.countP_nil]
    interval_cases c <;> simp
  · intro w hw
    simp only [List.mem_cons, List.not_mem_nil, or_false] at hw
    rcases hw with rfl | rfl | rfl | rfl | rfl | rfl | rfl <;> simp <;> omega

/-- Witness for C3 at a concrete `today` (day 9 = a Tuesday, 10:00). -/
theorem getCurrentWeekDates_matches_spec_witness :
    ((getCurrentWeekDates ⟨9, 600⟩).get ⟨3, by decide⟩).dayOfWeek = 3 :=
  (getCurrentWeekDates_matches_spec ⟨9, 600⟩).2.1 3 (by decide)

/-- JS decimal rendering of a number (template-literal interpolation). -/
def natChars (n : Nat) : Str := (Nat.repr n).data

/-- The body of `formatSingleTime` given the two halves of the split:
12-hour conversion `hour % 12 || 12` with an `AM`/`PM` suffix; the
`none` branch models a NaN hour (`NaN >= 12` is false, `NaN % 12 || 12`
is 12). -/
def formatWith (hours minutes : Str) : Str :=
  match parseIntJS hours with
  | some hour =>
      natChars (if hour % 12 == 0 then 12 else hour % 12) ++
        ':' :: (minutes ++ ' ' :: (if 12 ≤ hour then ("PM").data else ("AM").data))
  | none => natChars 12 ++ ':' :: (minutes ++ ' ' :: ("AM").data)

/-- Dispatch on the parts of `time.split(':')`; with fewer than two
parts the JS `minutes` binding is `undefined` and interpolates as the
text "undefined". -/
def formatParts : List Str → Str
  | hours :: minutes :: _ => formatWith hours minutes
  | [hours] => formatWith hours (("undefined").data)
  | [] => formatWith [] (("undefined").data)

/-- `formatSingleTime` from the week utilities. -/
def formatSingleTime (time : Str) : Str :=
  formatParts (splitAll ':' [] time)

/-- C9: for every well-formed 24-hour time `HH:MM` the display
formatter yields `h:MM AM/PM` with the 12-hour hour ((h+11) % 12 + 1,
so hours 0 and 12 both display as 12) and PM exactly when the hour is
at least 12; plus the three listed concrete examples. -/
theorem formatSingleTime_matches_spec :
    (∀ h m : Nat, h ≤ 23 → m ≤ 59 →
      formatSingleTime (renderTime h m) =
        natChars ((h + 11) % 12 + 1) ++
          ':' :: (twoDig m ++ ' ' :: (if 12 ≤ h then ("PM").data else ("AM").data)))
    ∧ formatSingleTime (("00:00").data) = ("12:00 AM").data
    ∧ formatSingleTime (("12:30").data) = ("12:30 PM").data
    ∧ formatSingleTime (("23:15").data) = ("11:15 PM").data := by
  refine ⟨?_, by decide, by decide, by decide⟩
  intro h m hh hm
  unfold formatSingleTime renderTime
  rw [splitAll_colon (colon_not_mem_twoDig (by omega)) (colon_not_mem_twoDig (by omega))]
  rw [formatParts, formatWith, parseIntJS_twoDig (by omega : h ≤ 99)]
  have hv : (if h % 12 == 0 then 12 else h % 12) = (h + 11) % 12 + 1 := by
    by_cases h0 : h % 12 = 0
    · simp only [h0]
      norm_num
      omega
    · rw [if_neg (by simpa using h0)]
      omega
  show natChars (if h % 12 == 0 then 12 else h % 12) ++
      ':' :: (twoDig m ++ ' ' :: (if 12 ≤ h then ("PM").data else ("AM").data)) = _
  rw [hv]

/-- Witness for C9 at 13:05. -/
theorem formatSingleTime_matches_spec_witness :
    formatSingleTime (renderTime 13 5) =
      natChars ((13 + 11) % 12 + 1) ++
        ':' :: (twoDig 5 ++ ' ' :: (if 12 ≤ 13 then ("PM").data else ("AM").data)) :=
  formatSingleTime_matches_spec.1 13 5 (by omega) (by omega)

def setTimeOfDay (date : DateM) (h m : Nat) : DateM := ⟨date.days, h * 60 + m⟩

/-- `slotDateTime < now` once the hour/minute have been parsed; a NaN
argument to `setHours` makes an Invalid Date, whose comparisons are all
false. -/
def validBefore (date : DateM) (oh om : Option Nat) (now : DateM) : Bool :=
  match oh, om with
  | some h, some m => (setTimeOfDay date h m).before now
  | _, _ => false

/-- `const [hours, minutes] = t.split(':')` then the comparison; with a
single part `minutes` is `undefined` and `parseInt` gives NaN. -/
def slotParts (date now : DateM) : List Str → Bool
  | hs :: ms :: _ => validBefore date (parseIntJS hs) (parseIntJS ms) now
  | _ => false

def slotDateBefore (date now : DateM) (t : Str) : Bool :=
  slotParts date now (splitAll ':' [] t)

/-- `const [startTime] = time.split(' - ')`: only the start half is
consulted.  The empty-list case is unreachable (a split is never
empty). -/
def rangeStart (date now : DateM) : List Str → Bool
  | startTime :: _ => slotDateBefore date now startTime
  | [] => false

/-- `isTimeSlotInPast` from the week utilities; the source reads the
wall clock, modelled by the explicit `now` argument. -/
def isTimeSlotInPast (date : DateM) (time : Str) (now : DateM) : Bool :=
  if includesSub ' ' sepDash time then
    rangeStart date now (splitAll ' ' sepDash time)
  else
    slotDateBefore date now time

theorem slotDateBefore_renderTime {h m : Nat} (date now : DateM)
    (hh : h ≤ 99) (hm : m ≤ 99) :
    slotDateBefore date now (renderTime h m) =
      decide (date.days * 1440 + (h * 60 + m) < now.days * 1440 + now.mins) := by
  unfold slotDateBefore renderTime
  rw [splitAll_colon (colon_not_mem_twoDig hh) (colon_not_mem_twoDig hm)]
  rw [slotParts, parseIntJS_twoDig hh, parseIntJS_twoDig hm]
  rfl

/-- C6: the past-slot check is true iff the WeekDate's day combined
with the slot's start time is strictly before now; for a range only the
start is consulted (the end hours/minutes h2/m2 do not appear in the
right-hand side), so a slot in progress counts as past, as the concrete
conjunct shows (slot 09:00-11:00 on the current day, now 10:00). -/
theorem isTimeSlotInPast_start_only (date now : DateM) (h1 m1 h2 m2 : Nat)
    (hh1 : h1 ≤ 23) (hm1 : m1 ≤ 59) (hh2 : h2 ≤ 23) (hm2 : m2 ≤ 59) :
    (isTimeSlotInPast date (TimeText.range h1 m1 h2 m2).render now = true ↔
      date.days * 1440 + (h1 * 60 + m1) < now.days * 1440 + now.mins)
    ∧ (isTimeSlotInPast date (renderTime h1 m1) now = true ↔
      date.days * 1440 + (h1 * 60 + m1) < now.days * 1440 + now.mins)
    ∧ isTimeSlotInPast ⟨7, 0⟩ (("09:00 - 11:00").data) ⟨7, 600⟩ = true := by
  refine ⟨?_, ?_, by decide⟩
  · unfold isTimeSlotInPast
    rw [show (TimeText.range h1 m1 h2 m2).render =
        renderTime h1 m1 ++ ' ' :: '-' :: ' ' :: renderTime h2 m2 from rfl]
    rw [includes_dash (space_not_mem_renderTime (by omega) (by omega))]
    simp only [if_true]
    rw [splitAll_dash (space_not_mem_renderTime (by omega) (by omega))
      (space_not_mem_renderTime (by omega) (by omega))]
    rw [rangeStart, slotDateBefore_renderTime date now (by omega) (by omega)]
    simp
  · unfold isTimeSlotInPast
    rw [not_includes_dash (space_not_mem_renderTime (by omega) (by omega))]
    simp only [Bool.false_eq_true, if_false]
    rw [slotDateBefore_renderTime date now (by omega) (by omega)]
    simp

/-- Witness for C6: slot Monday-like day 8, 09:30-10:30, now day 8 at
10:00 (=600 minutes): the start 09:30 is before now, so the slot is
past even though its end is not. -/
theorem isTimeSlotInPast_start_only_witness :
    isTimeSlotInPast ⟨8, 0⟩ (TimeText.range 9 30 10 30).render ⟨8, 600⟩ = true := by
  have h1 := (isTimeSlotInPast_start_only ⟨8, 0⟩ ⟨8, 600⟩ 9 30 10 30
    (by omega) (by omega) (by omega) (by omega)).1
  exact h1.mpr (by decide)

structure TimetableSlot where
  id : String
  subject : String
  facultyId : String
  facultyName : String
  time : Str
  day : String

structure ClassDetail where
  subject : String
  date : String
  time : Str
  day : String

structure AttendanceRequest where
  classDetails : List ClassDetail
  status : String

/-- Models `Date.toISOString().split('T')[0]`: an injective text
rendering of the calendar day.  The exact `YYYY-MM-DD` formatting is
irrelevant to the claims; only which day the text denotes matters. -/
def DateM.isoText (d : DateM) : String := Nat.repr d.days

/-- `checkDuplicateRequest` from the student request form.  The
`weekDate` parameter is received but never used by the source; the
source's wrapping of a non-array `classDetails` into a one-element
array is subsumed by the list model. -/
def checkDuplicateRequest (slot : TimetableSlot) (weekDate : WeekDate)
    (requests : List AttendanceRequest) : Bool :=
  requests.any fun request =>
    request.classDetails.any fun d =>
      d.subject == slot.subject && d.day == slot.day &&
        (d.time == slot.time || checkTimeOverlap d.time slot.time) &&
        request.status != "rejected"

/-- The duplicate predicate exactly as the claim states it: some
non-rejected request has a class-detail entry with the same subject,
the same day, an overlapping time, and the same calendar date as the
candidate (the candidate's date being that of the given week date). -/
def specIsDuplicate (slot : TimetableSlot) (weekDate : WeekDate)
    (requests : List AttendanceRequest) : Prop :=
  ∃ request ∈ requests, request.status ≠ "rejected" ∧
    ∃ d ∈ request.classDetails, d.subject = slot.subject ∧ d.day = slot.day ∧
      checkTimeOverlap d.time slot.time = true ∧ d.date = weekDate.date.isoText

instance (slot : TimetableSlot) (weekDate : WeekDate) (requests : List AttendanceRequest) :
    Decidable (specIsDuplicate slot weekDate requests) := by
  unfold specIsDuplicate
  infer_instance

/-- Counterexample to C4: a pending request for the same subject, day
and time but on a different calendar date (day 1, while the candidate
week date is day 8) still makes `checkDuplicateRequest` return true,
although the claim's predicate (same calendar date) is false. -/
theorem checkDuplicateRequest_date_cex :
    checkDuplicateRequest
        ⟨"t1", "Algorithms", "f1", "Dr", ("09:00 - 10:00").data, "1"⟩
        ⟨⟨8, 600⟩, 1, "Monday", true, false⟩
        [⟨[⟨"Algorithms", Nat.repr 1, ("09:00 - 10:00").data, "1"⟩], "pending"⟩] = true
    ∧ ¬ specIsDuplicate
        ⟨"t1", "Algorithms", "f1", "Dr", ("09:00 - 10:00").data, "1"⟩
        ⟨⟨8, 600⟩, 1, "Monday", true, false⟩
        [⟨[⟨"Algorithms", Nat.repr 1, ("09:00 - 10:00").data, "1"⟩], "pending"⟩] := by
  constructor
  · decide
  · decide

/-- C4 amended: the duplicate check is true iff some non-rejected
request has a class-detail entry with the same subject and day whose
time is the identical text or overlaps the candidate's; the calendar
date is not consulted.  Rejected requests never block resubmission. -/
theorem checkDuplicateRequest_amended (slot : TimetableSlot) (weekDate : WeekDate)
    (requests : List AttendanceRequest) :
    (checkDuplicateRequest slot weekDate requests = true ↔
      ∃ request ∈ requests, request.status ≠ "rejected" ∧
        ∃ d ∈ request.classDetails, d.subject = slot.subject ∧ d.day = slot.day ∧
          (d.time = slot.time ∨ checkTimeOverlap d.time slot.time = true))
    ∧ ((∀ request ∈ requests, request.status = "rejected") →
        checkDuplicateRequest slot weekDate requests = false) := by
  have hiff : checkDuplicateRequest slot weekDate requests = true ↔
      ∃ request ∈ requests, request.status ≠ "rejected" ∧
        ∃ d ∈ request.classDetails, d.subject = slot.subject ∧ d.day = slot.day ∧
          (d.time = slot.time ∨ checkTimeOverlap d.time slot.time = true) := by
    unfold checkDuplicateRequest
    simp only [List.any_eq_true, Bool.and_eq_true, Bool.or_eq_true, beq_iff_eq,
      bne_iff_ne, ne_eq]
    constructor
    · rintro ⟨req, hreq, d, hd, ⟨⟨hsub, hday⟩, htime⟩, hst⟩
      exact ⟨req, hreq, hst, d, hd, hsub, hday, htime⟩
    · rintro ⟨req, hreq, hst, d, hd, hsub, hday, htime⟩
      exact ⟨req, hreq, d, hd, ⟨⟨hsub, hday⟩, htime⟩, hst⟩
  refine ⟨hiff, ?_⟩
  intro hall
  cases hval : checkDuplicateRequest slot weekDate requests with
  | false => rfl
  | true =>
    obtain ⟨req, hreq, hst, _⟩ := hiff.mp hval
    exact absurd (hall req hreq) hst

/-- Witness for the amended C4: a lone rejected request does not block. -/
theorem checkDuplicateRequest_amended_witness :
    checkDuplicateRequest
        ⟨"t1", "Algorithms", "f1", "Dr", ("09:00 - 10:00").data, "1"⟩
        ⟨⟨8, 600⟩, 1, "Monday", true, false⟩
        [⟨[⟨"Algorithms", Nat.repr 8, ("09:00 - 10:00").data, "1"⟩], "rejected"⟩] = false :=
  (checkDuplicateRequest_amended _ _ _).2 (by
    intro request hreq
    simp only [List.mem_singleton] at hreq
    rw [hreq])

structure AbsReq where
  status : String
  previousStatus : Option String
  processedAt : Option Nat

/-- The document update performed by `processRequest`: the decision
becomes the status, `processedAt` is stamped, and the status held at
the time of the transition is recorded as `previousStatus`. -/
def processRequest (r : AbsReq) (newStatus : String) (now : Nat) : AbsReq :=
  { status := newStatus, processedAt := some now, previousStatus := some r.status }

/-- The document update performed by `undoAction`:
`status := previousStatus || 'pending'` (JS `||`: null, undefined and
the empty string fall back to "pending"), and `processedAt` and
`previousStatus` are cleared. -/
def undoAction (r : AbsReq) : AbsReq :=
  { status :=
      match r.previousStatus with
      | some s => if s = "" then "pending" else s
      | none => "pending",
    processedAt := none, previousStatus := none }

/-- C5: a forward transition records the status held at transition time
as the previous status; undo restores exactly that recorded status and
clears the stored previous status, so at most one prior value is
retained and a second undo only resets to "pending" instead of
restoring anything. -/
theorem processRequest_undo_spec (r : AbsReq) (newStatus : String) (now : Nat)
    (hr : r.status ≠ "") :
    (processRequest r newStatus now).previousStatus = some r.status
    ∧ (undoAction (processRequest r newStatus now)).status = r.status
    ∧ (undoAction (processRequest r newStatus now)).previousStatus = none
    ∧ (∀ r2 : AbsReq, r2.previousStatus = none →
        undoAction r2 = ⟨"pending", none, none⟩)
    ∧ undoAction (undoAction (processRequest r newStatus now)) = ⟨"pending", none, none⟩ := by
  refine ⟨rfl, ?_, rfl, ?_, rfl⟩
  · simp [undoAction, processRequest, hr]
  · intro r2 h2
    simp [undoAction, h2]

/-- Witness for C5: approve a pending request at time 5, then undo. -/
theorem processRequest_undo_spec_witness :
    (AbsReq.mk "pending" none none).status ≠ "" ∧
    (undoAction (processRequest ⟨"pending", none, none⟩ ("approved") 5)).status = "pending" :=
  ⟨by decide, (processRequest_undo_spec ⟨"pending", none, none⟩ ("approved") 5 (by decide)).2.1⟩


structure ExistingEntry where
  subject : String
  time : Str
deriving DecidableEq

structure EntryForm where
  startTime : Str
  endTime : Str
  subject : String
  facultyId : String
  course : String
  semester : String
deriving DecidableEq

inductive SubmitOutcome where
  | missingFields
  | invalidTime (error : Option String)
  | conflict (subject : String) (time : Str)
  | saved (time : Str)
deriving DecidableEq

/-- `handleSubmit` from the timetable entry modal: required-field
check, then `validateTimeRange` on the combined "start - end" text
(the JS local `timeRange` is inlined), then the overlap conflict check
against the existing entries of the selected day.  The source's
`.some` + `.find` pair is modelled by `List.find?`: it is `some` iff
some entry overlaps, and returns the first such entry. -/
def handleSubmit (showCourseSemester : Bool) (f : EntryForm)
    (existingEntries : List ExistingEntry) : SubmitOutcome :=
  if f.startTime.isEmpty || f.endTime.isEmpty || f.subject == "" || f.facultyId == ""
      || (showCourseSemester && (f.course == "" || f.semester == "")) then
    .missingFields
  else if !(validateTimeRange (f.startTime ++ ' ' :: '-' :: ' ' :: f.endTime)).isValid then
    .invalidTime (validateTimeRange (f.startTime ++ ' ' :: '-' :: ' ' :: f.endTime)).error
  else
    match existingEntries.find? fun entry =>
        checkTimeOverlap entry.time (f.startTime ++ ' ' :: '-' :: ' ' :: f.endTime) with
    | some conflictingEntry => .conflict conflictingEntry.subject conflictingEntry.time
    | none => .saved (f.startTime ++ ' ' :: '-' :: ' ' :: f.endTime)

/-- All required fields of the modal form are filled. -/
def fieldsFilled (showCourseSemester : Bool) (f : EntryForm) : Prop :=
  f.startTime ≠ [] ∧ f.endTime ≠ [] ∧ f.subject ≠ "" ∧ f.facultyId ≠ "" ∧
    (showCourseSemester = true → (f.course ≠ "" ∧ f.semester ≠ ""))

instance (b : Bool) (f : EntryForm) : Decidable (fieldsFilled b f) := by
  unfold fieldsFilled
  infer_instance

theorem handleSubmit_filled_valid (showCS : Bool) (f : EntryForm)
    (existing : List ExistingEntry)
    (hf : fieldsFilled showCS f)
    (hv : (validateTimeRange (f.startTime ++ ' ' :: '-' :: ' ' :: f.endTime)).isValid = true) :
    handleSubmit showCS f existing =
      match existing.find? fun entry =>
          checkTimeOverlap entry.time (f.startTime ++ ' ' :: '-' :: ' ' :: f.endTime) with
      | some conflictingEntry => .conflict conflictingEntry.subject conflictingEntry.time
      | none => .saved (f.startTime ++ ' ' :: '-' :: ' ' :: f.endTime) := by
  obtain ⟨h1, h2, h3, h4, h5⟩ := hf
  have e1 : f.startTime.isEmpty = false := by
    cases hx : f.startTime with
    | nil => exact absurd hx h1
    | cons a l => rfl
  have e2 : f.endTime.isEmpty = false := by
    cases hx : f.endTime with
    | nil => exact absurd hx h2
    | cons a l => rfl
  have e3 : (f.subject == "") = false := by simpa using h3
  have e4 : (f.facultyId == "") = false := by simpa using h4
  have e5 : (showCS && (f.course == "" || f.semester == "")) = false := by
    cases showCS with
    | false => rfl
    | true =>
      obtain ⟨hc, hs⟩ := h5 rfl
      have ec : (f.course == "") = false := by simpa using hc
      have es : (f.semester == "") = false := by simpa using hs
      rw [Bool.true_and, ec, es]
      rfl
  unfold handleSubmit
  rw [e1, e2, e3, e4, e5]
  simp only [Bool.or_self, Bool.or_false, Bool.false_eq_true, if_false]
  rw [hv]
  simp only [Bool.not_true, Bool.false_eq_true, if_false]

/-- C7: a modal submission is rejected with a conflict naming an
overlapping existing entry's subject and time iff the proposed range
overlaps some existing entry of that day (given filled fields and a
valid range); with no overlap it is saved.  The end-to-end scenario:
against Monday "09:00 - 10:00" Algorithms, proposing "09:30 - 10:30" is
rejected naming Algorithms / "09:00 - 10:00", while "10:00 - 11:00"
(touching only) is saved. -/
theorem handleSubmit_conflict_spec :
    (∀ (showCS : Bool) (f : EntryForm) (existing : List ExistingEntry)
        (subj : String) (t : Str),
      handleSubmit showCS f existing = .conflict subj t →
      ∃ e ∈ existing, e.subject = subj ∧ e.time = t ∧
        checkTimeOverlap e.time (f.startTime ++ ' ' :: '-' :: ' ' :: f.endTime) = true)
    ∧ (∀ (showCS : Bool) (f : EntryForm) (existing : List ExistingEntry),
        fieldsFilled showCS f →
        (validateTimeRange (f.startTime ++ ' ' :: '-' :: ' ' :: f.endTime)).isValid = true →
        (∃ e ∈ existing,
          checkTimeOverlap e.time (f.startTime ++ ' ' :: '-' :: ' ' :: f.endTime) = true) →
        ∃ subj t, handleSubmit showCS f existing = .conflict subj t)
    ∧ (∀ (showCS : Bool) (f : EntryForm) (existing : List ExistingEntry),
        fieldsFilled showCS f →
        (validateTimeRange (f.startTime ++ ' ' :: '-' :: ' ' :: f.endTime)).isValid = true →
        (∀ e ∈ existing,
          checkTimeOverlap e.time (f.startTime ++ ' ' :: '-' :: ' ' :: f.endTime) = false) →
        handleSubmit showCS f existing = .saved (f.startTime ++ ' ' :: '-' :: ' ' :: f.endTime))
    ∧ handleSubmit true
        ⟨("09:30").data, ("10:30").data, "DS", "f1", "BCA", "1"⟩
        [⟨"Algorithms", ("09:00 - 10:00").data⟩] =
        .conflict "Algorithms" (("09:00 - 10:00").data)
    ∧ handleSubmit true
        ⟨("10:00").data, ("11:00").data, "DS", "f1", "BCA", "1"⟩
        [⟨"Algorithms", ("09:00 - 10:00").data⟩] =
        .saved (("10:00 - 11:00").data) := by
  refine ⟨?_, ?_, ?_, by decide, by decide⟩
  · intro showCS f existing subj t h
    unfold handleSubmit at h
    split at h
    · exact absurd h (by simp)
    · split at h
      · exact absurd h (by simp)
      · split at h
        · next e heq =>
          obtain ⟨hsub, ht⟩ := SubmitOutcome.conflict.inj h
          have hp := List.find?_some (p := fun (entry : ExistingEntry) =>
            checkTimeOverlap entry.time (f.startTime ++ ' ' :: '-' :: ' ' :: f.endTime)) heq
          exact ⟨e, List.mem_of_find?_eq_some heq, hsub, ht, hp⟩
        · exact absurd h (by simp)
  · intro showCS f existing hf hv hex
    rw [handleSubmit_filled_valid showCS f existing hf hv]
    have : (existing.find? fun entry =>
        checkTimeOverlap entry.time (f.startTime ++ ' ' :: '-' :: ' ' :: f.endTime)).isSome := by
      rw [List.find?_isSome]
      obtain ⟨e, he, hover⟩ := hex
      exact ⟨e, he, hover⟩
    obtain ⟨e, heq⟩ := Option.isSome_iff_exists.mp this
    rw [heq]
    exact ⟨e.subject, e.time, rfl⟩
  · intro showCS f existing hf hv hall
    rw [handleSubmit_filled_valid showCS f existing hf hv]
    have : (existing.find? fun entry =>
        checkTimeOverlap entry.time (f.startTime ++ ' ' :: '-' :: ' ' :: f.endTime)) = none := by
      rw [List.find?_eq_none]
      intro e he
      simp [hall e he]
    rw [this]

/-- Witness for C7: the touching proposal "10:00 - 11:00" is saved. -/
theorem handleSubmit_conflict_spec_witness :
    fieldsFilled true ⟨("10:00").data, ("11:00").data, "DS", "f1", "BCA", "1"⟩ ∧
    handleSubmit true ⟨("10:00").data, ("11:00").data, "DS", "f1", "BCA", "1"⟩
      [⟨"Algorithms", ("09:00 - 10:00").data⟩] = .saved (("10:00 - 11:00").data) :=
  ⟨by decide,
    handleSubmit_conflict_spec.2.2.1 true
      ⟨("10:00").data, ("11:00").data, "DS", "f1", "BCA", "1"⟩
      [⟨"Algorithms", ("09:00 - 10:00").data⟩] (by decide) (by decide) (by decide)⟩

structure TTDoc where
  course : String
  semester : String
  day : String
  date : String
  time : Str
  subject : String
  facultyId : String
  facultyName : String
deriving DecidableEq

/-- One remote document-store operation issued by `saveTimetable`.
Documents are keyed by a numeric id in this model. -/
inductive DbOp where
  | del (id : Nat)
  | add (doc : TTDoc)
deriving DecidableEq

/-- Effect of one operation on the store (fresh ids of added documents
are irrelevant to the claims and are modelled as 0). -/
def applyOp (store : List (Nat × TTDoc)) : DbOp → List (Nat × TTDoc)
  | .del i => store.filter fun p => p.1 != i
  | .add d => store ++ [(0, d)]

def applyOps (store : List (Nat × TTDoc)) (ops : List DbOp) : List (Nat × TTDoc) :=
  ops.foldl applyOp store

/-- The documents of the selected course/semester scope (the
`where course == ... && semester == ...` query). -/
def scopeDocs (store : List (Nat × TTDoc)) (course semester : String) : List (Nat × TTDoc) :=
  store.filter fun p => p.2.course == course && p.2.semester == semester

/-- The in-memory weekly timetable: per day-of-week, the time-slot map. -/
structure SlotInfo where
  subject : String
  facultyId : String
  facultyName : String

/-- The entries built by `saveTimetable` from the in-memory timetable:
slots with an empty subject or faculty are skipped; `dateOf` models the
per-day `weekDate.date.toISOString().split('T')[0]` lookup. -/
def entriesToAdd (course semester : String)
    (timetable : List (String × List (Str × SlotInfo)))
    (dateOf : String → String) : List TTDoc :=
  timetable.flatMap fun dayPair =>
    dayPair.2.filterMap fun slotPair =>
      if slotPair.2.subject != "" && slotPair.2.facultyId != "" then
        some ⟨course, semester, dayPair.1, dateOf dayPair.1, slotPair.1,
          slotPair.2.subject, slotPair.2.facultyId, slotPair.2.facultyName⟩
      else none

/-- The operation sequence of `saveTimetable`: first delete every
existing document of the scope, then insert the new entries. -/
def saveTimetableOps (store : List (Nat × TTDoc)) (course semester : String)
    (newEntries : List TTDoc) : List DbOp :=
  (scopeDocs store course semester).map (fun p => DbOp.del p.1) ++ newEntries.map DbOp.add

/-- `saveTimetable` run to completion. -/
def saveTimetable (store : List (Nat × TTDoc)) (course semester : String)
    (timetable : List (String × List (Str × SlotInfo)))
    (dateOf : String → String) : List (Nat × TTDoc) :=
  applyOps store (saveTimetableOps store course semester
    (entriesToAdd course semester timetable dateOf))

theorem applyOps_dels (store : List (Nat × TTDoc)) (ids : List Nat) :
    applyOps store (ids.map DbOp.del) = store.filter fun p => decide (p.1 ∉ ids) := by
  induction ids generalizing store with
  | nil => simp [applyOps]
  | cons i rest ih =>
    rw [List.map_cons]
    show applyOps (applyOp store (DbOp.del i)) (rest.map DbOp.del) = _
    rw [ih]
    show (store.filter fun p => p.1 != i).filter (fun p => decide (p.1 ∉ rest)) = _
    rw [List.filter_filter]
    apply List.filter_congr
    intro p _
    simp only [List.mem_cons, not_or, Bool.decide_and]
    rw [Bool.and_comm]
    congr 1
    rw [bne, beq_decide]
    simp [decide_not]

/-- C8: the bulk save first issues a delete for every stored document
of the selected course/semester scope and only afterwards the inserts;
after exactly the delete phase (a reachable failure point, strictly
before the end whenever there is something to insert) the scope is
empty. -/
theorem saveTimetable_gap_spec (store : List (Nat × TTDoc)) (course semester : String)
    (newEntries : List TTDoc) :
    saveTimetableOps store course semester newEntries =
      (scopeDocs store course semester).map (fun p => DbOp.del p.1) ++
        newEntries.map DbOp.add
    ∧ (∀ op ∈ (saveTimetableOps store course semester newEntries).take
        (scopeDocs store course semester).length, ∀ d, op ≠ DbOp.add d)
    ∧ scopeDocs (applyOps store ((saveTimetableOps store course semester newEntries).take
        (scopeDocs store course semester).length)) course semester = []
    ∧ (newEntries ≠ [] →
        (scopeDocs store course semester).length <
          (saveTimetableOps store course semester newEntries).length) := by
  have htake : (saveTimetableOps store course semester newEntries).take
      (scopeDocs store course semester).length =
      (scopeDocs store course semester).map fun p => DbOp.del p.1 := by
    unfold saveTimetableOps
    have hlen : ((scopeDocs store course semester).map fun p => DbOp.del p.1).length =
        (scopeDocs store course semester).length := List.length_map _ _
    rw [← hlen, List.take_left]
  refine ⟨rfl, ?_, ?_, ?_⟩
  · rw [htake]
    intro op hop d
    obtain ⟨p, _, hp⟩ := List.mem_map.mp hop
    rw [← hp]
    simp
  · rw [htake]
    have hmm : ((scopeDocs store course semester).map fun p => DbOp.del p.1) =
        ((scopeDocs store course semester).map fun p => p.1).map DbOp.del := by
      rw [List.map_map]
      rfl
    rw [hmm, applyOps_dels]
    unfold scopeDocs
    rw [List.filter_eq_nil_iff]
    intro p hp
    obtain ⟨hps, hpid⟩ := List.mem_filter.mp hp
    simp only [decide_eq_true_eq] at hpid
    intro hscope
    exact hpid (List.mem_map.mpr ⟨p, List.mem_filter.mpr ⟨hps, hscope⟩, rfl⟩)
  · intro hne
    unfold saveTimetableOps
    rw [List.length_append, List.length_map, List.length_map]
    have : 0 < newEntries.length := List.length_pos.mpr hne
    omega

/-- Witness for C8: one stored scope document, one pending insert. -/
theorem saveTimetable_gap_spec_witness :
    ([⟨"BCA", "1", "1", "8", ("09:30 - 10:30").data, "DS", "f1", "Dr"⟩] : List TTDoc) ≠ [] ∧
    (scopeDocs [(4, ⟨"BCA", "1", "1", "8", ("09:00 - 10:00").data, "Algo", "f1", "Dr"⟩)]
        "BCA" "1").length <
      (saveTimetableOps [(4, ⟨"BCA", "1", "1", "8", ("09:00 - 10:00").data, "Algo", "f1", "Dr"⟩)]
        "BCA" "1" [⟨"BCA", "1", "1", "8", ("09:30 - 10:30").data, "DS", "f1", "Dr"⟩]).length :=
  ⟨by decide,
    (saveTimetable_gap_spec
      [(4, ⟨"BCA", "1", "1", "8", ("09:00 - 10:00").data, "Algo", "f1", "Dr"⟩)] "BCA" "1"
      [⟨"BCA", "1", "1", "8", ("09:30 - 10:30").data, "DS", "f1", "Dr"⟩]).2.2.2 (by decide)⟩

structure TimetableData where
  course : String
  semester : String
  day : String
  time : Str
  subject : String
  facultyId : String
  facultyName : String
deriving DecidableEq

inductive AddResult where
  | validationError (msg : String)
  | added (store : List TimetableData)
deriving DecidableEq

/-- `addTimetableEntry` from the admin dashboard: only course, semester
and subject are checked for emptiness (JS falsy); the document is then
written as-is, with no time-format validation and no overlap check. -/
def addTimetableEntry (td : TimetableData) (store : List TimetableData) : AddResult :=
  if td.course == "" || td.semester == "" || td.subject == "" then
    .validationError ("Please fill in all required fields.")
  else
    .added (store ++ [td])

/-- C10: the admin add performs no time validation and no overlap
check: any entry with non-empty course/semester/subject is written
as-is — including one overlapping an existing same-scope same-day entry
and one with malformed time text — and it fails with the validation
message exactly when course, semester or subject is empty. -/
theorem addTimetableEntry_no_validation (td : TimetableData) (store : List TimetableData) :
    (td.course ≠ "" → td.semester ≠ "" → td.subject ≠ "" →
      addTimetableEntry td store = .added (store ++ [td]))
    ∧ ((td.course = "" ∨ td.semester = "" ∨ td.subject = "") →
      addTimetableEntry td store = .validationError ("Please fill in all required fields."))
    ∧ addTimetableEntry ⟨"BCA", "1", "1", ("09:30 - 10:30").data, "Algo", "f1", "Dr"⟩
        [⟨"BCA", "1", "1", ("09:00 - 10:00").data, "Algo", "f1", "Dr"⟩] =
        .added [⟨"BCA", "1", "1", ("09:00 - 10:00").data, "Algo", "f1", "Dr"⟩,
          ⟨"BCA", "1", "1", ("09:30 - 10:30").data, "Algo", "f1", "Dr"⟩]
    ∧ checkTimeOverlap (("09:00 - 10:00").data) (("09:30 - 10:30").data) = true
    ∧ addTimetableEntry ⟨"BCA", "1", "1", ("99:99").data, "Algo", "f1", "Dr"⟩ [] =
        .added [⟨"BCA", "1", "1", ("99:99").data, "Algo", "f1", "Dr"⟩]
    ∧ (validateTimeRange (("99:99").data)).isValid = false := by
  refine ⟨?_, ?_, by decide, by decide, by decide, by decide⟩
  · intro h1 h2 h3
    unfold addTimetableEntry
    have e1 : (td.course == "") = false := by simpa using h1
    have e2 : (td.semester == "") = false := by simpa using h2
    have e3 : (td.subject == "") = false := by simpa using h3
    rw [e1, e2, e3]
    rfl
  · intro hbad
    unfold addTimetableEntry
    rcases hbad with h | h | h <;> simp [h]

/-- Witness for C10 at a filled-in entry. -/
theorem addTimetableEntry_no_validation_witness :
    addTimetableEntry ⟨"BCA", "1", "1", ("12:00").data, "OS", "f2", "Dr"⟩ [] =
      .added [⟨"BCA", "1", "1", ("12:00").data, "OS", "f2", "Dr"⟩] :=
  (addTimetableEntry_no_validation ⟨"BCA", "1", "1", ("12:00").data, "OS", "f2", "Dr"⟩ []).1
    (by decide) (by decide) (by decide)
